import Mathlib

/-!
Verification of the rmk-cli template acquisition and materialization
pipeline, modelled from src/main.rs. Archive entry paths are modelled as
lists of path segments, file contents as lists of characters, and the
filesystem effects of each pipeline step as explicit logs or finite maps.
-/

namespace Rmk

/-- An archive entry, as exposed by the zip index: its path decomposed into
segments, whether the raw path is absolute, whether it is a directory
entry, and its raw byte/char content. -/
structure ArchiveEntry where
  segments : List String
  isAbsolute : Bool
  isDir : Bool
  content : List Char
deriving DecidableEq

/-- Model of ZipFile::enclosed_name: returns the decoded path only when it
is safe, i.e. not absolute and containing no parent-directory component;
otherwise none. -/
def enclosed_name (e : ArchiveEntry) : Option (List String) :=
  if e.isAbsolute ∨ ".." ∈ e.segments then none else some e.segments

/-- The error channel of the pipeline (each constructor models one of the
distinct error returns in src/main.rs). -/
inductive RunErr where
  | invalidFilePath
  | variantNotFound (folder : String)
  | downloadFailed (status : Nat)
  | tempCreateFailed
  | streamFailed
  | zipOpenFailed
  | configCopyFailed (which : String)
  | readFailed (path : List String)
  | writeFailed (path : List String)
deriving DecidableEq

/-- A single filesystem write performed by the extraction loop: either a
directory creation or a file creation with raw content. -/
inductive ZStep where
  | mkdir (path : List String)
  | writeFile (path : List String) (content : List Char)
deriving DecidableEq

/-- The selection guard from the extraction loop, on a decoded segment
list: segments.len() > 1 && segments[1] == folder. -/
def matchesFolder (folder : String) (segs : List String) : Bool :=
  decide (1 < segs.length) && (segs.getD 1 "" == folder)

/-- Selection guard applied to an entry's segments. -/
def selectedEntry (folder : String) (e : ArchiveEntry) : Bool :=
  matchesFolder folder e.segments

/-- The filesystem write the loop performs for a selected entry with
decoded segments segs: out_path joins the segments with the first two
skipped; a directory entry creates the directory, a file entry writes the
raw content. -/
def toWrite (out segs : List String) (e : ArchiveEntry) : ZStep :=
  if e.isDir then ZStep.mkdir (out ++ segs.drop 2)
  else ZStep.writeFile (out ++ segs.drop 2) e.content

/-- Result of the extraction loop: the list of writes performed, in order,
and the error it ended with, if any. -/
structure ExtractOut where
  writes : List ZStep
  err : Option RunErr
deriving DecidableEq

/-- The extraction loop of download_with_progress over the remaining
entries, carrying the folder_found flag. Each entry's enclosed name is
validated first (aborting with invalidFilePath when unsafe); a selected
entry is written and sets the flag; after the loop, a cleared flag yields
the variant-not-found error. -/
def extractFrom (out : List String) (folder : String) :
    List ArchiveEntry → Bool → ExtractOut
  | [], found =>
    if found then ⟨[], none⟩ else ⟨[], some (RunErr.variantNotFound folder)⟩
  | e :: rest, found =>
    match enclosed_name e with
    | none => ⟨[], some RunErr.invalidFilePath⟩
    | some segs =>
      if matchesFolder folder segs then
        let r := extractFrom out folder rest true
        ⟨toWrite out segs e :: r.writes, r.err⟩
      else
        extractFrom out folder rest found

/-- The whole extraction step: the loop started with folder_found =
false. -/
def extract (out : List String) (folder : String)
    (entries : List ArchiveEntry) : ExtractOut :=
  extractFrom out folder entries false

theorem enclosed_name_eq_some {e : ArchiveEntry} {segs : List String}
    (h : enclosed_name e = some segs) : segs = e.segments := by
  unfold enclosed_name at h
  split at h
  · exact absurd h (by simp)
  · exact (Option.some_inj.mp h).symm

theorem enclosed_name_isSome_iff {e : ArchiveEntry} :
    (enclosed_name e).isSome = true ↔ enclosed_name e = some e.segments := by
  unfold enclosed_name
  split <;> simp

/-- Characterization of the writes performed by the extraction loop: the
valid prefix of the entry list, filtered by the selection guard, mapped to
its writes. -/
theorem extractFrom_writes (out : List String) (folder : String) :
    ∀ (entries : List ArchiveEntry) (found : Bool),
    (extractFrom out folder entries found).writes =
      ((entries.takeWhile (fun e => (enclosed_name e).isSome)).filter
        (fun e => selectedEntry folder e)).map
        (fun e => toWrite out e.segments e) := by
  intro entries
  induction entries with
  | nil => intro found; cases found <;> simp [extractFrom]
  | cons e rest ih =>
    intro found
    cases h : enclosed_name e with
    | none =>
      simp [extractFrom, h, List.takeWhile_cons]
    | some segs =>
      have hseg : segs = e.segments := enclosed_name_eq_some h
      subst hseg
      by_cases hsel : matchesFolder folder e.segments = true
      · simp [extractFrom, h, hsel, List.takeWhile_cons, List.filter_cons,
          selectedEntry, ih]
      · simp only [Bool.not_eq_true] at hsel
        simp [extractFrom, h, hsel, List.takeWhile_cons, List.filter_cons,
          selectedEntry, ih]

/-- Characterization of the error produced by the extraction loop. -/
theorem extractFrom_err (out : List String) (folder : String) :
    ∀ (entries : List ArchiveEntry) (found : Bool),
    (extractFrom out folder entries found).err =
      (if entries.all (fun e => (enclosed_name e).isSome) then
        (if found || entries.any (fun e => selectedEntry folder e) then
          none
        else some (RunErr.variantNotFound folder))
      else some RunErr.invalidFilePath) := by
  intro entries
  induction entries with
  | nil => intro found; cases found <;> simp [extractFrom]
  | cons e rest ih =>
    intro found
    cases h : enclosed_name e with
    | none =>
      have hns : (enclosed_name e).isSome = false := by simp [h]
      simp [extractFrom, h, hns]
    | some segs =>
      have hseg : segs = e.segments := enclosed_name_eq_some h
      subst hseg
      have hs : (enclosed_name e).isSome = true := by simp [h]
      by_cases hsel : matchesFolder folder e.segments = true
      · have hsel' : selectedEntry folder e = true := hsel
        simp [extractFrom, h, hsel, hs, hsel', ih]
      · simp only [Bool.not_eq_true] at hsel
        have hsel' : selectedEntry folder e = false := hsel
        simp [extractFrom, h, hsel, hs, hsel', ih]

theorem takeWhile_append_all {α : Type} (p : α → Bool) (l₁ l₂ : List α)
    (h : l₁.all p = true) :
    (l₁ ++ l₂).takeWhile p = l₁ ++ l₂.takeWhile p := by
  induction l₁ with
  | nil => simp
  | cons a t ih => simp_all [List.takeWhile_cons]

/-- C1: an archive entry is selected by the extractor iff its decoded path
has at least 2 segments and segment 1 equals the variant selector, by
exact string comparison; the writes performed are exactly those of the
selected entries of the validated prefix of the archive, so a non-selected
entry is never extracted. -/
theorem extract_selects_iff_segment1 (out : List String) (folder : String)
    (entries : List ArchiveEntry) :
    (extract out folder entries).writes =
      ((entries.takeWhile (fun e => (enclosed_name e).isSome)).filter
        (fun e => selectedEntry folder e)).map
        (fun e => toWrite out e.segments e)
    ∧ ∀ e : ArchiveEntry, selectedEntry folder e = true ↔
        (2 ≤ e.segments.length ∧ e.segments[1]? = some folder) := by
  constructor
  · exact extractFrom_writes out folder entries false
  · intro e
    unfold selectedEntry matchesFolder
    cases hs : e.segments with
    | nil => simp
    | cons a tail =>
      cases tail with
      | nil => simp
      | cons b tail2 => simp [List.getD]

/-- C2: every write performed by extraction comes from a selected entry and
targets the entry's path with its first two segments dropped (directory
entries via mkdir, file entries by copying raw content verbatim); on a
successful run the writes are exactly those of the selected entries in
index order, so no file outside the selected set is written. -/
theorem extract_output_paths (out : List String) (folder : String)
    (entries : List ArchiveEntry) :
    (∀ w ∈ (extract out folder entries).writes, ∃ e ∈ entries,
        selectedEntry folder e = true ∧ w = toWrite out e.segments e)
    ∧ ((extract out folder entries).err = none →
        (extract out folder entries).writes =
          (entries.filter (fun e => selectedEntry folder e)).map
            (fun e =>
              if e.isDir then ZStep.mkdir (out ++ e.segments.drop 2)
              else ZStep.writeFile (out ++ e.segments.drop 2) e.content)) := by
  constructor
  · intro w hw
    rw [extract, extractFrom_writes] at hw
    obtain ⟨e, he, rfl⟩ := List.mem_map.mp hw
    have he2 := List.mem_filter.mp he
    exact ⟨e, (List.takeWhile_prefix _).subset he2.1, he2.2, rfl⟩
  · intro herr
    rw [extract, extractFrom_err] at herr
    have hall : entries.all (fun e => (enclosed_name e).isSome) = true := by
      by_contra hna
      simp only [Bool.not_eq_true] at hna
      rw [hna] at herr
      simp at herr
    rw [extract, extractFrom_writes,
      List.takeWhile_eq_self_iff.mpr (by simpa [List.all_eq_true] using hall)]
    simp only [toWrite]

/-- An archive entry with a parent-directory segment, used to exhibit the
failure mode of extraction on archives with no matching variant. -/
def c3Entry : ArchiveEntry := ⟨["r", "..", "f.txt"], false, false, []⟩

/-- C3 counterexample: an archive whose single entry does not match the
selector but carries an unsafe path makes extraction fail with the
invalid-file-path error, not with the variant-not-found error naming the
selector, refuting the claim as universally stated. -/
theorem extract_missing_variant_cex :
    selectedEntry "nrf52840" c3Entry = false
    ∧ (extract [] "nrf52840" [c3Entry]).err = some RunErr.invalidFilePath
    ∧ (extract [] "nrf52840" [c3Entry]).err ≠
        some (RunErr.variantNotFound "nrf52840") := by decide

/-- C3 amended: if no entry of the archive has segment 1 equal to the
selector then extraction performs no write, and, provided additionally
that every entry's decoded path is valid, it fails with the
variant-not-found error naming the selector. -/
theorem extract_missing_variant (out : List String) (folder : String)
    (entries : List ArchiveEntry)
    (hnone : entries.all (fun e => !selectedEntry folder e) = true) :
    (extract out folder entries).writes = []
    ∧ (entries.all (fun e => (enclosed_name e).isSome) = true →
        (extract out folder entries).err =
          some (RunErr.variantNotFound folder)) := by
  simp only [List.all_eq_true, Bool.not_eq_true'] at hnone
  constructor
  · rw [extract, extractFrom_writes]
    have : (entries.takeWhile (fun e => (enclosed_name e).isSome)).filter
        (fun e => selectedEntry folder e) = [] := by
      rw [List.filter_eq_nil_iff]
      intro e he
      simp [hnone e ((List.takeWhile_prefix _).subset he)]
    rw [this]
    rfl
  · intro hval
    rw [extract, extractFrom_err, hval]
    have hany : entries.any (fun e => selectedEntry folder e) = false := by
      simp only [List.any_eq_false]
      intro e he
      simp [hnone e he]
    rw [hany]
    rfl

/-- C5: if any archive entry's decoded path is unsafe (absolute or
containing a parent-directory segment), extraction fails with the
invalid-file-path error, and every write it performed comes from a valid
selected entry, so no file is ever written for a rejected entry. -/
theorem extract_rejects_unsafe (out : List String) (folder : String)
    (entries : List ArchiveEntry)
    (hbad : entries.any (fun e => (enclosed_name e).isNone) = true) :
    (extract out folder entries).err = some RunErr.invalidFilePath
    ∧ ∀ w ∈ (extract out folder entries).writes, ∃ e ∈ entries,
        (enclosed_name e).isSome = true ∧ selectedEntry folder e = true ∧
        w = toWrite out e.segments e := by
  have hall : entries.all (fun e => (enclosed_name e).isSome) = false := by
    simp only [List.any_eq_true] at hbad
    obtain ⟨e, he, hne⟩ := hbad
    by_contra hc
    simp only [Bool.not_eq_false, List.all_eq_true] at hc
    have := hc e he
    simp [Option.isNone_iff_eq_none.mp hne] at this
  constructor
  · rw [extract, extractFrom_err, hall]
    rfl
  · intro w hw
    rw [extract, extractFrom_writes] at hw
    obtain ⟨e, he, rfl⟩ := List.mem_map.mp hw
    have he2 := List.mem_filter.mp he
    have h3 := List.mem_takeWhile_imp he2.1
    exact ⟨e, (List.takeWhile_prefix _).subset he2.1, h3, he2.2, rfl⟩

/-- C10: the extractor validates every entry path before and independently
of the selector match: if the entries before position i are all valid and
entry i has an unsafe path (whether or not it matches the selector),
extraction aborts with the invalid-file-path error and its writes are
exactly those of the selected entries strictly before position i — no
later entry is written. -/
theorem extract_validates_all_paths (out : List String) (folder : String)
    (pre post : List ArchiveEntry) (e : ArchiveEntry)
    (hbad : enclosed_name e = none)
    (hpre : pre.all (fun x => (enclosed_name x).isSome) = true) :
    (extract out folder (pre ++ e :: post)).err = some RunErr.invalidFilePath
    ∧ (extract out folder (pre ++ e :: post)).writes =
        (pre.filter (fun x => selectedEntry folder x)).map
          (fun x => toWrite out x.segments x) := by
  constructor
  · have hall : (pre ++ e :: post).all
        (fun x => (enclosed_name x).isSome) = false := by
      simp [List.all_append, hbad]
    rw [extract, extractFrom_err, hall]
    rfl
  · rw [extract, extractFrom_writes,
      takeWhile_append_all _ _ _ hpre, List.takeWhile_cons]
    simp [hbad]

/-- Concrete run of extraction on a one-entry archive whose entry is
selected, discharging the success hypothesis of extract_output_paths. -/
theorem extract_output_paths_witness :
    (extract ["o"] "f"
      [ArchiveEntry.mk ["r", "f", "a"] false false ['h']]).err = none
    ∧ (extract ["o"] "f"
        [ArchiveEntry.mk ["r", "f", "a"] false false ['h']]).writes =
        ([ArchiveEntry.mk ["r", "f", "a"] false false ['h']].filter
          (fun e => selectedEntry "f" e)).map
          (fun e =>
            if e.isDir then ZStep.mkdir (["o"] ++ e.segments.drop 2)
            else ZStep.writeFile (["o"] ++ e.segments.drop 2) e.content) :=
  ⟨by decide, (extract_output_paths ["o"] "f"
    [ArchiveEntry.mk ["r", "f", "a"] false false ['h']]).2 (by decide)⟩

/-- Concrete run of extraction on a one-entry archive with a valid but
unselected entry, discharging the hypotheses of extract_missing_variant. -/
theorem extract_missing_variant_witness :
    ([ArchiveEntry.mk ["r", "g", "x"] false true []].all
      (fun e => !selectedEntry "f" e)) = true
    ∧ ((extract ["o"] "f"
          [ArchiveEntry.mk ["r", "g", "x"] false true []]).writes = []
      ∧ (([ArchiveEntry.mk ["r", "g", "x"] false true []].all
            (fun e => (enclosed_name e).isSome)) = true →
          (extract ["o"] "f"
            [ArchiveEntry.mk ["r", "g", "x"] false true []]).err =
            some (RunErr.variantNotFound "f"))) :=
  ⟨by decide, extract_missing_variant ["o"] "f"
    [ArchiveEntry.mk ["r", "g", "x"] false true []] (by decide)⟩

/-- Concrete run of extraction on an archive holding one selected valid
entry and one unsafe entry, discharging the hypothesis of
extract_rejects_unsafe. -/
theorem extract_rejects_unsafe_witness :
    ([ArchiveEntry.mk ["r", "f", "ok"] false true [],
      ArchiveEntry.mk ["r", "..", "z"] false false []].any
        (fun e => (enclosed_name e).isNone)) = true
    ∧ ((extract [] "f"
          [ArchiveEntry.mk ["r", "f", "ok"] false true [],
            ArchiveEntry.mk ["r", "..", "z"] false false []]).err =
          some RunErr.invalidFilePath
      ∧ ∀ w ∈ (extract [] "f"
          [ArchiveEntry.mk ["r", "f", "ok"] false true [],
            ArchiveEntry.mk ["r", "..", "z"] false false []]).writes,
          ∃ e ∈ [ArchiveEntry.mk ["r", "f", "ok"] false true [],
            ArchiveEntry.mk ["r", "..", "z"] false false []],
            (enclosed_name e).isSome = true ∧ selectedEntry "f" e = true ∧
            w = toWrite [] e.segments e) :=
  ⟨by decide, extract_rejects_unsafe [] "f"
    [ArchiveEntry.mk ["r", "f", "ok"] false true [],
      ArchiveEntry.mk ["r", "..", "z"] false false []] (by decide)⟩

/-- Concrete run of extraction where a valid selected entry precedes an
unsafe non-selected entry which precedes another selected entry,
discharging the hypotheses of extract_validates_all_paths. -/
theorem extract_validates_all_paths_witness :
    enclosed_name (ArchiveEntry.mk ["a", "..", "b"] false false []) = none
    ∧ ([ArchiveEntry.mk ["r", "f", "a"] false true []].all
        (fun x => (enclosed_name x).isSome)) = true
    ∧ ((extract [] "f"
          ([ArchiveEntry.mk ["r", "f", "a"] false true []] ++
            ArchiveEntry.mk ["a", "..", "b"] false false [] ::
              [ArchiveEntry.mk ["r", "f", "c"] false true []])).err =
          some RunErr.invalidFilePath
      ∧ (extract [] "f"
          ([ArchiveEntry.mk ["r", "f", "a"] false true []] ++
            ArchiveEntry.mk ["a", "..", "b"] false false [] ::
              [ArchiveEntry.mk ["r", "f", "c"] false true []])).writes =
          ([ArchiveEntry.mk ["r", "f", "a"] false true []].filter
            (fun x => selectedEntry "f" x)).map
            (fun x => toWrite [] x.segments x)) :=
  ⟨by decide, by decide, extract_validates_all_paths [] "f"
    [ArchiveEntry.mk ["r", "f", "a"] false true []]
    [ArchiveEntry.mk ["r", "f", "c"] false true []]
    (ArchiveEntry.mk ["a", "..", "b"] false false [])
    (by decide) (by decide)⟩

/-- Model of reqwest StatusCode::is_success: a 2xx status. -/
def statusIsSuccess (s : Nat) : Bool :=
  decide (200 ≤ s) && decide (s < 300)

/-- The environment a single run of download_with_progress observes: the
HTTP response status, whether creating the temporary file, streaming the
body, and opening the zip succeed, and the archive's entries. -/
structure Oracle where
  status : Nat
  createTempOk : Bool
  chunksOk : Bool
  zipOpenOk : Bool
  entries : List ArchiveEntry
deriving DecidableEq

instance : DecidableEq (Except RunErr Unit) := fun a b =>
  match a, b with
  | Except.error x, Except.error y =>
    if h : x = y then isTrue (by rw [h]) else isFalse (by simp [h])
  | Except.ok x, Except.ok y => isTrue (by cases x; cases y; rfl)
  | Except.error _, Except.ok _ => isFalse (by simp)
  | Except.ok _, Except.error _ => isFalse (by simp)

/-- Observable outcome of one run of download_with_progress: the GET
requests issued, whether the temporary archive file was ever created,
whether it exists once the run reached its terminal state, the extraction
writes performed, and the result. -/
structure PipeOut where
  requests : List String
  tempCreated : Bool
  tempExists : Bool
  extracted : List ZStep
  result : Except RunErr Unit
deriving DecidableEq

/-- The body of download_with_progress up to, but not including, the
scope-exit cleanup guard: clean destination, issue one GET, fail fast on a
non-success status, create the temp file, stream the body to it, open the
zip and run the extraction loop. Each early error return leaves the temp
file on disk exactly when it had been created. -/
def download_body (url : String) (out : List String) (folder : String)
    (o : Oracle) : PipeOut :=
  if statusIsSuccess o.status then
    if o.createTempOk then
      if o.chunksOk then
        if o.zipOpenOk then
          match (extract out folder o.entries).err with
          | some e => ⟨[url], true, true, (extract out folder o.entries).writes,
              Except.error e⟩
          | none => ⟨[url], true, true, (extract out folder o.entries).writes,
              Except.ok ()⟩
        else ⟨[url], true, true, [], Except.error RunErr.zipOpenFailed⟩
      else ⟨[url], true, true, [], Except.error RunErr.streamFailed⟩
    else ⟨[url], false, false, [], Except.error RunErr.tempCreateFailed⟩
  else ⟨[url], false, false, [], Except.error (RunErr.downloadFailed o.status)⟩

/-- Model of the TempFileCleanup drop guard: at scope exit, on every path,
remove the temporary file if it still exists. -/
def temp_file_cleanup (p : PipeOut) : PipeOut :=
  if p.tempExists then
    ⟨p.requests, p.tempCreated, false, p.extracted, p.result⟩
  else p

/-- The whole download_with_progress run: its body followed by the
scope-exit cleanup guard, which Rust runs on every exit path of the
scope. -/
def download_with_progress (url : String) (out : List String)
    (folder : String) (o : Oracle) : PipeOut :=
  temp_file_cleanup (download_body url out folder o)

/-- C4: on every exit path of the pipeline — success, failure at any step
after the temporary file is created, or an error interrupting the run
earlier — the temporary archive file does not exist once the run reaches
its terminal state, because its removal is performed by the scope-exit
guard. -/
theorem temp_file_gone_on_all_paths (url : String) (out : List String)
    (folder : String) (o : Oracle) :
    (download_with_progress url out folder o).tempExists = false := by
  unfold download_with_progress temp_file_cleanup
  split
  · rfl
  · next hne => simpa using hne

/-- C8: a non-success HTTP status makes the fetch fail with an error
carrying the status, after exactly one GET request (no retry), with no
extraction write performed and the temporary file never created. -/
theorem nonsuccess_status_fails (url : String) (out : List String)
    (folder : String) (o : Oracle)
    (h : statusIsSuccess o.status = false) :
    (download_with_progress url out folder o).result =
      Except.error (RunErr.downloadFailed o.status)
    ∧ (download_with_progress url out folder o).requests = [url]
    ∧ (download_with_progress url out folder o).extracted = []
    ∧ (download_with_progress url out folder o).tempCreated = false := by
  unfold download_with_progress download_body temp_file_cleanup
  rw [h]
  simp

/-- Concrete failing fetch: status 404 on an otherwise healthy run,
discharging the hypothesis of nonsuccess_status_fails. -/
theorem nonsuccess_status_fails_witness :
    statusIsSuccess (Oracle.mk 404 true true true []).status = false
    ∧ ((download_with_progress "u" ["o"] "f"
          (Oracle.mk 404 true true true [])).result =
        Except.error (RunErr.downloadFailed
          (Oracle.mk 404 true true true []).status)
      ∧ (download_with_progress "u" ["o"] "f"
          (Oracle.mk 404 true true true [])).requests = ["u"]
      ∧ (download_with_progress "u" ["o"] "f"
          (Oracle.mk 404 true true true [])).extracted = []
      ∧ (download_with_progress "u" ["o"] "f"
          (Oracle.mk 404 true true true [])).tempCreated = false) :=
  ⟨by decide, nonsuccess_status_fails "u" ["o"] "f"
    (Oracle.mk 404 true true true []) (by decide)⟩

/-- The placeholder token that post_process replaces in every .toml
file. -/
def placeholderToken : List Char := "\x7b\x7b project_name \x7d\x7d".toList

/-- Model of str::replace: scan the content left to right and replace each
non-overlapping occurrence of pat with rep. -/
def replaceAll (pat rep : List Char) : List Char → List Char
  | [] => []
  | c :: rest =>
    if pat.isPrefixOf (c :: rest) then
      rep ++ replaceAll pat rep (rest.drop (pat.length - 1))
    else c :: replaceAll pat rep rest
termination_by s => s.length
decreasing_by
  all_goals simp [List.length_drop]
  all_goals omega
/-- Occurrence test: does pat occur as a contiguous substring of the
content. -/
def occursIn (pat : List Char) : List Char → Bool
  | [] => pat.isEmpty
  | c :: rest => pat.isPrefixOf (c :: rest) || occursIn pat rest

/-- A content with no occurrence of the pattern is left unchanged by
replaceAll. -/
theorem replaceAll_of_not_occurs (pat rep : List Char)
    (s : List Char) (h : occursIn pat s = false) :
    replaceAll pat rep s = s := by
  induction s with
  | nil => simp [replaceAll]
  | cons c rest ih =>
    rw [occursIn, Bool.or_eq_false_iff] at h
    simp [replaceAll, h.1, ih h.2]

/-- A regular file as seen by the placeholder-rewrite walker: its path,
extension, text content, and whether reading and writing it succeed. -/
structure TFile where
  path : List String
  ext : String
  content : List Char
  readOk : Bool
  writeOk : Bool
deriving DecidableEq

/-- Model of post_process: walk the files, and for each file with the
toml extension read its content (failing the whole step if unreadable),
replace every occurrence of the placeholder token with the project name,
and write the result back unconditionally (failing the whole step if
unwritable). Returns the resulting files and the log of paths written. -/
def post_process (name : List Char) :
    List TFile → Except RunErr (List TFile × List (List String))
  | [] => Except.ok ([], [])
  | f :: rest =>
    if f.ext == "toml" then
      if f.readOk then
        if f.writeOk then
          match post_process name rest with
          | Except.error e => Except.error e
          | Except.ok (fs, log) =>
            Except.ok (TFile.mk f.path f.ext
              (replaceAll placeholderToken name f.content)
              f.readOk f.writeOk :: fs,
              f.path :: log)
        else Except.error (RunErr.writeFailed f.path)
      else Except.error (RunErr.readFailed f.path)
    else
      match post_process name rest with
      | Except.error e => Except.error e
      | Except.ok (fs, log) => Except.ok (f :: fs, log)

/-- A toml file whose content holds no occurrence of the placeholder
token. -/
def c6File : TFile := TFile.mk ["a.toml"] "toml" "hello".toList true true

/-- C6 counterexample: on a toml file containing zero occurrences of the
placeholder token, post_process still performs a write (the file's path
appears in the write log), refuting the claim that no write is performed
on such a file. -/
theorem rewrite_writes_unchanged_file :
    occursIn placeholderToken c6File.content = false
    ∧ (post_process "nm".toList [c6File]).toOption.map Prod.snd =
        some [["a.toml"]]
    ∧ (some [["a.toml"]] : Option (List (List String))) ≠ some [] := by
  refine ⟨by decide, ?_, by decide⟩
  rfl

theorem post_process_ok_mem (name : List Char) :
    ∀ (files : List TFile) (out : List TFile × List (List String)),
    post_process name files = Except.ok out →
    ∀ f ∈ files, f.ext = "toml" →
      f.path ∈ out.2
      ∧ TFile.mk f.path f.ext (replaceAll placeholderToken name f.content)
          f.readOk f.writeOk ∈ out.1 := by
  intro files
  induction files with
  | nil =>
    intro out h f hf
    cases hf
  | cons g rest ih =>
    intro out h f hf hext
    by_cases hgext : g.ext = "toml"
    · have hgb : (g.ext == "toml") = true := by simp [hgext]
      have hro : g.readOk = true := by
        by_contra hc
        simp only [Bool.not_eq_true] at hc
        simp only [post_process, hgb, hc, Bool.false_eq_true, if_false,
          if_true] at h
        cases h
      have hwo : g.writeOk = true := by
        by_contra hc
        simp only [Bool.not_eq_true] at hc
        simp only [post_process, hgb, hro, hc, Bool.false_eq_true, if_false,
          if_true] at h
        cases h
      have hstep : post_process name (g :: rest) =
          match post_process name rest with
          | Except.error e => Except.error e
          | Except.ok (fs, log) =>
            Except.ok (TFile.mk g.path g.ext
              (replaceAll placeholderToken name g.content)
              g.readOk g.writeOk :: fs,
              g.path :: log) := by
        simp only [post_process]
        rw [if_pos hgb, if_pos hro, if_pos hwo]
      rw [hstep] at h
      cases hr : post_process name rest with
      | error e =>
        rw [hr] at h
        cases h
      | ok p =>
        cases p with
        | mk fs log =>
          rw [hr] at h
          have h2 : (Except.ok (TFile.mk g.path g.ext
              (replaceAll placeholderToken name g.content)
              g.readOk g.writeOk :: fs, g.path :: log) :
                Except RunErr (List TFile × List (List String))) =
              Except.ok out := h
          injection h2 with h3
          subst h3
          rcases List.mem_cons.mp hf with rfl | hf'
          · exact ⟨List.mem_cons_self _ _, List.mem_cons_self _ _⟩
          · have hm := ih (fs, log) hr f hf' hext
            exact ⟨List.mem_cons_of_mem _ hm.1, List.mem_cons_of_mem _ hm.2⟩
    · have hgb : (g.ext == "toml") = false := by
        simp [hgext]
      have hstep : post_process name (g :: rest) =
          match post_process name rest with
          | Except.error e => Except.error e
          | Except.ok (fs, log) => Except.ok (g :: fs, log) := by
        simp only [post_process]
        rw [if_neg (by simp [hgb])]
      rw [hstep] at h
      cases hr : post_process name rest with
      | error e =>
        rw [hr] at h
        cases h
      | ok p =>
        cases p with
        | mk fs log =>
          rw [hr] at h
          have h2 : (Except.ok (g :: fs, log) :
              Except RunErr (List TFile × List (List String))) =
              Except.ok out := h
          injection h2 with h3
          subst h3
          rcases List.mem_cons.mp hf with rfl | hf'
          · exact absurd hext hgext
          · have hm := ih (fs, log) hr f hf' hext
            exact ⟨hm.1, List.mem_cons_of_mem _ hm.2⟩

/-- C6 amended: for every toml file, post_process records a write of that
file (even when the content holds zero occurrences of the placeholder
token), the new content is the content with every occurrence of the token
replaced by the project name, and with zero occurrences the content is
unchanged, so the write rewrites identical content. -/
theorem rewrite_noop_content_on_no_occurrence (name : List Char)
    (files : List TFile) (out : List TFile × List (List String))
    (h : post_process name files = Except.ok out) :
    ∀ f ∈ files, f.ext = "toml" →
      f.path ∈ out.2
      ∧ TFile.mk f.path f.ext (replaceAll placeholderToken name f.content)
          f.readOk f.writeOk ∈ out.1
      ∧ (occursIn placeholderToken f.content = false →
          replaceAll placeholderToken name f.content = f.content) := by
  intro f hf hext
  have hm := post_process_ok_mem name files out h f hf hext
  exact ⟨hm.1, hm.2, fun hni =>
    replaceAll_of_not_occurs placeholderToken name f.content hni⟩

/-- Concrete successful rewrite run discharging the hypothesis of
rewrite_noop_content_on_no_occurrence. -/
theorem rewrite_noop_content_witness :
    post_process "n".toList [TFile.mk ["k.toml"] "toml" "ab".toList true true] =
      Except.ok ([TFile.mk ["k.toml"] "toml"
        (replaceAll placeholderToken "n".toList "ab".toList) true true],
        [["k.toml"]])
    ∧ ∀ f ∈ [TFile.mk ["k.toml"] "toml" "ab".toList true true],
        f.ext = "toml" →
        f.path ∈ (([TFile.mk ["k.toml"] "toml"
            (replaceAll placeholderToken "n".toList "ab".toList) true true],
            [["k.toml"]]) : List TFile × List (List String)).2
        ∧ TFile.mk f.path f.ext
            (replaceAll placeholderToken "n".toList f.content)
            f.readOk f.writeOk ∈
            (([TFile.mk ["k.toml"] "toml"
              (replaceAll placeholderToken "n".toList "ab".toList) true true],
              [["k.toml"]]) : List TFile × List (List String)).1
        ∧ (occursIn placeholderToken f.content = false →
            replaceAll placeholderToken "n".toList f.content = f.content) :=
  ⟨rfl, rewrite_noop_content_on_no_occurrence "n".toList
    [TFile.mk ["k.toml"] "toml" "ab".toList true true]
    ([TFile.mk ["k.toml"] "toml"
      (replaceAll placeholderToken "n".toList "ab".toList) true true],
      [["k.toml"]]) rfl⟩

/-- C7: a single unreadable or unwritable toml file in the traversal makes
the whole rewrite step fail with an error naming a failing file's path and
cause (read or write); no unreadable or unwritable toml file is silently
skipped into a successful run. -/
theorem rewrite_aborts_on_bad_file (name : List Char) (files : List TFile)
    (h : ∃ f ∈ files, f.ext = "toml" ∧
      (f.readOk = false ∨ f.writeOk = false)) :
    ∃ g ∈ files, g.ext = "toml" ∧
      ((g.readOk = false ∧
          post_process name files = Except.error (RunErr.readFailed g.path))
       ∨ (g.readOk = true ∧ g.writeOk = false ∧
          post_process name files =
            Except.error (RunErr.writeFailed g.path))) := by
  induction files with
  | nil =>
    obtain ⟨f, hf, _⟩ := h
    cases hf
  | cons g rest ih =>
    by_cases hgext : g.ext = "toml"
    · have hgb : (g.ext == "toml") = true := by simp [hgext]
      by_cases hro : g.readOk = true
      · by_cases hwo : g.writeOk = true
        · have h' : ∃ f ∈ rest, f.ext = "toml" ∧
              (f.readOk = false ∨ f.writeOk = false) := by
            obtain ⟨f, hf, hfe, hbad⟩ := h
            rcases List.mem_cons.mp hf with rfl | hf'
            · rcases hbad with hb | hb
              · simp [hro] at hb
              · simp [hwo] at hb
            · exact ⟨f, hf', hfe, hbad⟩
          obtain ⟨g2, hg2, hg2e, hcase⟩ := ih h'
          refine ⟨g2, List.mem_cons_of_mem _ hg2, hg2e, ?_⟩
          have hstep : post_process name (g :: rest) =
              match post_process name rest with
              | Except.error e => Except.error e
              | Except.ok (fs, log) =>
                Except.ok (TFile.mk g.path g.ext
                  (replaceAll placeholderToken name g.content)
                  g.readOk g.writeOk :: fs,
                  g.path :: log) := by
            simp only [post_process]
            rw [if_pos hgb, if_pos hro, if_pos hwo]
          rcases hcase with ⟨hr1, heq⟩ | ⟨hr1, hr2, heq⟩
          · exact Or.inl ⟨hr1, by rw [hstep, heq]⟩
          · exact Or.inr ⟨hr1, hr2, by rw [hstep, heq]⟩
        · have hwo' : g.writeOk = false := by simpa using hwo
          refine ⟨g, List.mem_cons_self _ _, hgext, Or.inr ⟨hro, hwo', ?_⟩⟩
          simp only [post_process]
          rw [if_pos hgb, if_pos hro, if_neg (by simp [hwo'])]
      · have hro' : g.readOk = false := by simpa using hro
        refine ⟨g, List.mem_cons_self _ _, hgext, Or.inl ⟨hro', ?_⟩⟩
        simp only [post_process]
        rw [if_pos hgb, if_neg (by simp [hro'])]
    · have hgb : (g.ext == "toml") = false := by simp [hgext]
      have h' : ∃ f ∈ rest, f.ext = "toml" ∧
          (f.readOk = false ∨ f.writeOk = false) := by
        obtain ⟨f, hf, hfe, hbad⟩ := h
        rcases List.mem_cons.mp hf with rfl | hf'
        · exact absurd hfe hgext
        · exact ⟨f, hf', hfe, hbad⟩
      obtain ⟨g2, hg2, hg2e, hcase⟩ := ih h'
      refine ⟨g2, List.mem_cons_of_mem _ hg2, hg2e, ?_⟩
      have hstep : post_process name (g :: rest) =
          match post_process name rest with
          | Except.error e => Except.error e
          | Except.ok (fs, log) => Except.ok (g :: fs, log) := by
        simp only [post_process]
        rw [if_neg (by simp [hgb])]
      rcases hcase with ⟨hr1, heq⟩ | ⟨hr1, hr2, heq⟩
      · exact Or.inl ⟨hr1, by rw [hstep, heq]⟩
      · exact Or.inr ⟨hr1, hr2, by rw [hstep, heq]⟩

/-- Concrete rewrite run over one healthy toml file and one unreadable
toml file, discharging the hypothesis of rewrite_aborts_on_bad_file. -/
theorem rewrite_aborts_on_bad_file_witness :
    (∃ f ∈ [TFile.mk ["good.toml"] "toml" [] true true,
        TFile.mk ["bad.toml"] "toml" [] false true], f.ext = "toml" ∧
      (f.readOk = false ∨ f.writeOk = false))
    ∧ ∃ g ∈ [TFile.mk ["good.toml"] "toml" [] true true,
        TFile.mk ["bad.toml"] "toml" [] false true], g.ext = "toml" ∧
      ((g.readOk = false ∧
          post_process "n".toList
            [TFile.mk ["good.toml"] "toml" [] true true,
              TFile.mk ["bad.toml"] "toml" [] false true] =
            Except.error (RunErr.readFailed g.path))
       ∨ (g.readOk = true ∧ g.writeOk = false ∧
          post_process "n".toList
            [TFile.mk ["good.toml"] "toml" [] true true,
              TFile.mk ["bad.toml"] "toml" [] false true] =
            Except.error (RunErr.writeFailed g.path))) :=
  ⟨by decide, rewrite_aborts_on_bad_file "n".toList
    [TFile.mk ["good.toml"] "toml" [] true true,
      TFile.mk ["bad.toml"] "toml" [] false true] (by decide)⟩

/-- A filesystem as a map from paths (lists of segments) to optional file
contents. -/
def FSMap := List String → Option String

/-- Model of std::fs::copy as used by create_project: read the source file
(failing if absent) and write its content at the destination path,
overwriting whatever was there. -/
def fs_copy (src dst : List String) (fs : FSMap) : Except RunErr FSMap :=
  match fs src with
  | none => Except.error (RunErr.configCopyFailed (String.intercalate "/" src))
  | some c => Except.ok (fun p => if p = dst then some c else fs p)

/-- The config overlay step of create_project: copy the keyboard config to
target_dir/keyboard.toml, then the vial config to target_dir/vial.json. -/
def config_overlay (kb vial dir : List String) (fs : FSMap) :
    Except RunErr FSMap :=
  match fs_copy kb (dir ++ ["keyboard.toml"]) fs with
  | Except.error e => Except.error e
  | Except.ok fs1 => fs_copy vial (dir ++ ["vial.json"]) fs1

/-- Initial filesystem for the overlay counterexample: both destination
files exist with old contents and an external vial source exists. -/
def c9fs : FSMap := fun p =>
  if p = ["t", "keyboard.toml"] then some "x"
  else if p = ["t", "vial.json"] then some "b"
  else if p = ["E"] then some "e" else none

/-- One overlay run on c9fs with the keyboard source aliasing the vial
destination file. -/
def c9once : Except RunErr FSMap :=
  config_overlay ["t", "vial.json"] ["E"] ["t"] c9fs

/-- Two overlay runs on c9fs with the same arguments. -/
def c9twice : Except RunErr FSMap :=
  match c9once with
  | Except.error e => Except.error e
  | Except.ok fs1 => config_overlay ["t", "vial.json"] ["E"] ["t"] fs1

/-- C9 counterexample: when the keyboard-config source path aliases the
vial destination file, running the overlay twice leaves
target_dir/keyboard.toml with content differing from a single run, so the
overlay is not idempotent for arbitrary pairs of source paths. -/
theorem overlay_not_idempotent_cex :
    (c9once.toOption.map (fun fs => fs ["t", "keyboard.toml"])) =
      some (some "b")
    ∧ (c9twice.toOption.map (fun fs => fs ["t", "keyboard.toml"])) =
      some (some "e")
    ∧ (some (some "b") : Option (Option String)) ≠ some (some "e") := by
  refine ⟨rfl, rfl, by decide⟩

theorem overlay_dests_ne (dir : List String) :
    dir ++ ["keyboard.toml"] ≠ dir ++ ["vial.json"] := by
  induction dir with
  | nil => intro h; exact absurd h (by decide)
  | cons a t ih => intro h; injection h with h1 h2; exact ih h2

theorem fs_copy_ok {src dst : List String} {fs g : FSMap}
    (h : fs_copy src dst fs = Except.ok g) :
    ∃ c, fs src = some c
      ∧ g = fun p => if p = dst then some c else fs p := by
  unfold fs_copy at h
  cases hs : fs src with
  | none =>
    rw [hs] at h
    have h2 : (Except.error (RunErr.configCopyFailed
        (String.intercalate "/" src)) : Except RunErr FSMap) =
        Except.ok g := h
    cases h2
  | some c =>
    rw [hs] at h
    have h2 : (Except.ok (fun p => if p = dst then some c else fs p) :
        Except RunErr FSMap) = Except.ok g := h
    injection h2 with h3
    exact ⟨c, rfl, h3.symm⟩

theorem fs_copy_eq_ok {src dst : List String} {fs : FSMap} {c : String}
    (h : fs src = some c) :
    fs_copy src dst fs =
      Except.ok (fun p => if p = dst then some c else fs p) := by
  unfold fs_copy
  rw [h]

theorem config_overlay_ok {kb vial dir : List String} {fs g : FSMap}
    (h : config_overlay kb vial dir fs = Except.ok g) :
    ∃ fsA, fs_copy kb (dir ++ ["keyboard.toml"]) fs = Except.ok fsA
      ∧ fs_copy vial (dir ++ ["vial.json"]) fsA = Except.ok g := by
  unfold config_overlay at h
  cases hc : fs_copy kb (dir ++ ["keyboard.toml"]) fs with
  | error e =>
    rw [hc] at h
    have h2 : (Except.error e : Except RunErr FSMap) = Except.ok g := h
    cases h2
  | ok fsA =>
    rw [hc] at h
    exact ⟨fsA, rfl, h⟩

/-- C9 amended: provided the keyboard-config source path is not the vial
destination file target_dir/vial.json, a second overlay run with the same
two source files succeeds and changes nothing: every path of the resulting
filesystem holds the same content as after the first run, so in particular
the two destination files are identical. -/
theorem config_overlay_eq (kb vial dir : List String) (fs : FSMap)
    (ckb cv : String) (h1 : fs kb = some ckb)
    (h2 : (if vial = dir ++ ["keyboard.toml"] then some ckb else fs vial) =
      some cv) :
    config_overlay kb vial dir fs =
      Except.ok (fun p => if p = dir ++ ["vial.json"] then some cv
        else if p = dir ++ ["keyboard.toml"] then some ckb else fs p) := by
  unfold config_overlay
  rw [fs_copy_eq_ok h1]
  show fs_copy vial (dir ++ ["vial.json"])
    (fun p => if p = dir ++ ["keyboard.toml"] then some ckb else fs p) = _
  rw [fs_copy_eq_ok (h2 :
    (fun p => if p = dir ++ ["keyboard.toml"] then some ckb else fs p) vial =
      some cv)]

/-- C9 amended: provided the keyboard-config source path is not the vial
destination file target_dir/vial.json, a second overlay run with the same
two source files succeeds and changes nothing: every path of the resulting
filesystem holds the same content as after the first run, so in particular
the two destination files are identical. -/
theorem overlay_idempotent (kb vial dir : List String) (fs fs1 : FSMap)
    (hkb : kb ≠ dir ++ ["vial.json"])
    (h1 : config_overlay kb vial dir fs = Except.ok fs1) :
    ∃ fs2, config_overlay kb vial dir fs1 = Except.ok fs2
      ∧ ∀ p, fs2 p = fs1 p := by
  have hd : dir ++ ["keyboard.toml"] ≠ dir ++ ["vial.json"] :=
    overlay_dests_ne dir
  obtain ⟨fsA, hA, hB⟩ := config_overlay_ok h1
  obtain ⟨ckb, hskb, heqA⟩ := fs_copy_ok hA
  obtain ⟨cv, hsv, heqB⟩ := fs_copy_ok hB
  have hfsA : ∀ p, fsA p =
      if p = dir ++ ["keyboard.toml"] then some ckb else fs p := by
    intro p
    rw [heqA]
  have hfs1 : ∀ p, fs1 p =
      if p = dir ++ ["vial.json"] then some cv else fsA p := by
    intro p
    rw [heqB]
  have h1' : fs1 kb = some ckb := by
    rw [hfs1, if_neg hkb, hfsA]
    by_cases hk1 : kb = dir ++ ["keyboard.toml"]
    · rw [if_pos hk1]
    · rw [if_neg hk1]
      exact hskb
  have h2' : (if vial = dir ++ ["keyboard.toml"] then some ckb
      else fs1 vial) = some cv := by
    by_cases hv1 : vial = dir ++ ["keyboard.toml"]
    · rw [if_pos hv1]
      have h' := hsv
      rw [hfsA, if_pos hv1] at h'
      exact h'
    · rw [if_neg hv1, hfs1]
      by_cases hvd : vial = dir ++ ["vial.json"]
      · rw [if_pos hvd]
      · rw [if_neg hvd]
        exact hsv
  refine ⟨_, config_overlay_eq kb vial dir fs1 ckb cv h1' h2', ?_⟩
  intro p
  show (if p = dir ++ ["vial.json"] then some cv
    else if p = dir ++ ["keyboard.toml"] then some ckb else fs1 p) = fs1 p
  by_cases hp2 : p = dir ++ ["vial.json"]
  · rw [if_pos hp2, hfs1, if_pos hp2]
  · rw [if_neg hp2]
    by_cases hp1 : p = dir ++ ["keyboard.toml"]
    · rw [if_pos hp1, hfs1, if_neg (fun h => hd (hp1 ▸ h)), hfsA,
        if_pos hp1]
    · rw [if_neg hp1]

/-- Initial filesystem for the idempotence witness: two source files
outside the target directory. -/
def wfs : FSMap := fun p =>
  if p = ["kb"] then some "a" else if p = ["vj"] then some "b" else none

/-- Result of one overlay run on wfs. -/
def wfs1 : FSMap := fun p =>
  if p = ["t", "vial.json"] then some "b"
  else if p = ["t", "keyboard.toml"] then some "a" else wfs p

/-- Concrete overlay run with non-aliasing source paths, discharging the
hypotheses of overlay_idempotent. -/
theorem overlay_idempotent_witness :
    (["kb"] : List String) ≠ ["t"] ++ ["vial.json"]
    ∧ ∃ fs2, config_overlay ["kb"] ["vj"] ["t"] wfs1 = Except.ok fs2
        ∧ ∀ p, fs2 p = wfs1 p :=
  ⟨by decide, overlay_idempotent ["kb"] ["vj"] ["t"] wfs wfs1 (by decide) rfl⟩

end Rmk
